import Mathlib

/-
Shallow embedding of the koi_fish task runner (src/koi/runner.py, src/koi/constants.py,
src/koi/__main__.py).  Jobs are named tables of shell commands; the Runner resolves an
ordered job suite from CLI selections and the configuration, assembles each job's command
sequence from its phases, executes it through a shell oracle, and aggregates outcomes.
-/

namespace Koi

/-- A config value for a job phase: `Job: TypeAlias = list[str] | str` (runner.py line 16). -/
inductive Job where
  | single (s : String)
  | multi (l : List String)
deriving DecidableEq, Repr

/-- `JobTable = dict[str, Job]` (runner.py line 17); embedded as an association list in
declaration order (Python dicts preserve insertion order and TOML tables have unique keys). -/
abbrev JobTable := List (String × Job)

/-- `self.data: dict[str, JobTable]` (runner.py line 47): the decoded configuration,
job name to job body, in declaration order. -/
abbrev Config := List (String × JobTable)

/-- Dictionary lookup on an association list: first binding of the key wins
(for unique keys this is exactly Python dict indexing / `.get`). -/
def lookup {α : Type} : List (String × α) → String → Option α
  | [], _ => none
  | (k, v) :: rest, key => if k = key then some v else lookup rest key

/-- The keys of a dictionary in declaration order: `list(d)` / `for x in d`. -/
def keys {α : Type} (d : List (String × α)) : List String :=
  d.map Prod.fst

/-- Python `key in d` membership test on a dict. -/
def containsKey {α : Type} (d : List (String × α)) (key : String) : Bool :=
  (lookup d key).isSome

namespace Table

/-- Source: `COMMANDS = {"commands", "cmd"}` (constants.py line 5).  The source holds a
Python set whose iteration order is unspecified; the embedding fixes the literal order. -/
def COMMANDS : List String := ["commands", "cmd"]

/-- Source: `PRE_RUN = {"pre_run", "pre"}` (constants.py line 6). -/
def PRE_RUN : List String := ["pre_run", "pre"]

/-- Source: `POST_RUN = {"post_run", "post"}` (constants.py line 7). -/
def POST_RUN : List String := ["post_run", "post"]

/-- Source: `RUN = "run"` (constants.py line 8). -/
def RUN : String := "run"

/-- Source: `MAIN = "main"` (constants.py line 9). -/
def MAIN : String := "main"

end Table

/-- Python truthiness of a `Job` value: the empty string and the empty list are falsy. -/
def jobTruthy : Job → Bool
  | .single s => !(s = "")
  | .multi l => !l.isEmpty

/-- Python truthiness of an optional `Job` value (`None` is falsy). -/
def optTruthy : Option Job → Bool
  | none => false
  | some j => jobTruthy j

/-- Loop body of `Runner.get_command` (runner.py lines 298-305): scan the alias names in
order; a present entry found while the current `cmd` is truthy reports a duplicate. -/
def get_command_go (table_entries : JobTable) : List String → Option Job → Option Job × Bool
  | [], cmd => (cmd, false)
  | name :: rest, cmd =>
    match lookup table_entries name with
    | none => get_command_go table_entries rest cmd
    | some entry =>
      if optTruthy cmd then (none, true)
      else get_command_go table_entries rest (some entry)

/-- `Runner.get_command` (runner.py lines 297-305): returns the phase's value and a
duplicate-entry flag.  The source iterates a Python set; the embedding iterates the
alias list in literal order. -/
def get_command (table_entries : JobTable) (table_names : List String) : Option Job × Bool :=
  get_command_go table_entries table_names none

/-- `Runner.add_command` (runner.py lines 307-312): a list extends the command list,
a single string is appended as one element. -/
def add_command (cmds_list : List String) (cmd : Job) : List String :=
  match cmd with
  | .multi l => cmds_list ++ l
  | .single s => cmds_list ++ [s]

/-- The two early-return error paths of `Runner.build_commands_list` (runner.py lines
285-292), where the source returns `[]` after logging the corresponding message. -/
inductive BuildError where
  | duplicateEntry (table : String) (names : List String)
  | missingCommands (table : String)
deriving DecidableEq, Repr

/-- Loop body of `Runner.build_commands_list` (runner.py lines 280-295) over the fixed
phase order `(PRE_RUN, COMMANDS, POST_RUN)`.  An `.error` result corresponds to the
source returning `[]` (after appending the job to `failed_jobs`, which the `run_sub_flow`
embedding performs). -/
def build_commands_list_go (table : String) (table_entries : JobTable) :
    List (List String) → List String → Except BuildError (List String)
  | [], cmds => .ok cmds
  | names :: rest, cmds =>
    match get_command table_entries names with
    | (_, true) => .error (.duplicateEntry table names)
    | (cmd, false) =>
      if optTruthy cmd = false ∧ names = Table.COMMANDS then .error (.missingCommands table)
      else
        match cmd with
        | some c =>
          if jobTruthy c then build_commands_list_go table table_entries rest (add_command cmds c)
          else build_commands_list_go table table_entries rest cmds
        | none => build_commands_list_go table table_entries rest cmds

/-- `Runner.build_commands_list` (runner.py lines 280-295). -/
def build_commands_list (table : String) (table_entries : JobTable) :
    Except BuildError (List String) :=
  build_commands_list_go table table_entries [Table.PRE_RUN, Table.COMMANDS, Table.POST_RUN] []

/-- The mutable outcome accumulators `self.successful_jobs` / `self.failed_jobs`
(runner.py lines 49-50), appended to in completion order. -/
structure RunState where
  successful : List String
  failed : List String
deriving DecidableEq, Repr

/-- `Runner.run_sub_flow` (runner.py lines 247-273), with shell execution abstracted as
an oracle from the assembled command list to a success flag.  On a command-assembly
error the job is appended to `failed` (done inside `build_commands_list` in the source)
and on a shell failure likewise; `is_main_flow and fail_fast` breaks out of the loop. -/
def run_sub_flow (shell : List String → Bool) (fail_fast : Bool) (is_main_flow : Bool) :
    List (String × JobTable) → RunState → Bool → RunState × Bool
  | [], st, is_run_successful => (st, is_run_successful)
  | (table, table_entries) :: rest, st, is_run_successful =>
    match build_commands_list table table_entries with
    | .error _ =>
      if is_main_flow && fail_fast then (⟨st.successful, st.failed ++ [table]⟩, false)
      else run_sub_flow shell fail_fast is_main_flow rest ⟨st.successful, st.failed ++ [table]⟩ false
    | .ok cmds =>
      if shell cmds then
        run_sub_flow shell fail_fast is_main_flow rest
          ⟨st.successful ++ [table], st.failed⟩ is_run_successful
      else
        if is_main_flow && fail_fast then (⟨st.successful, st.failed ++ [table]⟩, false)
        else run_sub_flow shell fail_fast is_main_flow rest
          ⟨st.successful, st.failed ++ [table]⟩ false

/-- One job of a sub-flow succeeds: its commands assemble without error and the shell
oracle reports success for them (runner.py lines 255-262). -/
def job_succeeds (shell : List String → Bool) (p : String × JobTable) : Bool :=
  match build_commands_list p.1 p.2 with
  | .error _ => false
  | .ok cmds => shell cmds

/-- Loop body of `Runner.prepare_job_suite` (runner.py lines 81-90) with the `added_jobs`
accumulator explicit.  A `none` result is the `KeyError` Python raises at
`self.data[job]` when a selected job name is not a configuration key. -/
def prepare_job_suite_go (data : Config) (allow_duplicates : Bool) (skip_list : List String) :
    List String → List String → Option (List (String × JobTable))
  | [], _ => some []
  | job :: rest, added_jobs =>
    if job ∈ skip_list ∨ (job ∈ added_jobs ∧ allow_duplicates = false) then
      prepare_job_suite_go data allow_duplicates skip_list rest added_jobs
    else
      match lookup data job with
      | none => none
      | some body =>
        (prepare_job_suite_go data allow_duplicates skip_list rest (job :: added_jobs)).map
          (fun suite => (job, body) :: suite)

/-- `Runner.prepare_job_suite` (runner.py lines 81-90): filter the raw job list against
the skip list and, unless duplicates are allowed, against the already-added set,
pairing each kept name with its configuration body. -/
def prepare_job_suite (data : Config) (allow_duplicates : Bool)
    (jobs_list skip_list : List String) : Option (List (String × JobTable)) :=
  prepare_job_suite_go data allow_duplicates skip_list jobs_list []

/-- The five logged error paths of `Runner.prepare_all_jobs_from_config`
(runner.py lines 111-139), in source order. -/
inductive RunDirectiveError where
  | missingMain
  | emptyMain
  | mainNotList
  | mainContainsRun
  | invalidJobs (invalid : List String)
deriving DecidableEq, Repr

/-- `Runner.prepare_all_jobs_from_config` (runner.py lines 111-139), given the already
fetched `run` table (`jobs = self.data[Table.RUN]`).  The checks run in source order:
`main` present, truthy, a list, free of `"run"`, and with every element a config key;
`.ok` returns the validated `main` list (the source assigns it to `self.all_jobs`). -/
def prepare_all_jobs_from_config (data : Config) (jobs : JobTable) :
    Except RunDirectiveError (List String) :=
  match lookup jobs Table.MAIN with
  | none => .error .missingMain
  | some main =>
    if jobTruthy main = false then .error .emptyMain
    else
      match main with
      | .single _ => .error .mainNotList
      | .multi l =>
        if Table.RUN ∈ l then .error .mainContainsRun
        else if (l.filter (fun job => !containsKey data job)).isEmpty then .ok l
        else .error (.invalidJobs (l.filter (fun job => !containsKey data job)))

/-- `Runner.job_suite` (runner.py lines 67-79): pick the raw job list by precedence
(CLI selection, run-all flag, reserved `run` table, all keys), then filter it through
`prepare_job_suite` with the omit list.  On a run-directive validation failure the
source returns the empty suite.  `Table.RUN in self.data` is exactly
`lookup data Table.RUN = some run_table`. -/
def job_suite (data : Config) (cli_jobs : List String) (run_all : Bool)
    (jobs_to_omit : List String) (allow_duplicates : Bool) :
    Option (List (String × JobTable)) :=
  if !cli_jobs.isEmpty then
    prepare_job_suite data allow_duplicates cli_jobs jobs_to_omit
  else if run_all then
    prepare_job_suite data allow_duplicates ((keys data).filter (fun job => !(job = Table.RUN)))
      jobs_to_omit
  else
    match lookup data Table.RUN with
    | some run_table =>
      match prepare_all_jobs_from_config data run_table with
      | .error _ => some []
      | .ok main => prepare_job_suite data allow_duplicates main jobs_to_omit
    | none => prepare_job_suite data allow_duplicates (keys data) jobs_to_omit

/-- `Runner.validate_cli_jobs` (runner.py lines 200-209): with neither explicit jobs nor
deferred jobs, succeed; otherwise every name in their union must be a configuration key
(the source scans `set(cli_jobs).union(jobs_to_defer)` and fails on any member missing
from the config). -/
def validate_cli_jobs (data : Config) (cli_jobs jobs_to_defer : List String) : Bool :=
  if cli_jobs.isEmpty && jobs_to_defer.isEmpty then true
  else (cli_jobs ++ jobs_to_defer).all (fun job => containsKey data job)

/-- `Runner.handle_config_file` / `read_config_file` (runner.py lines 185-198): the file
must exist, have non-zero size, and decode to a non-empty mapping.  File-system facts
enter as the two booleans; `data` is the decoded mapping. -/
def handle_config_file (config_exists config_size_nonzero : Bool) (data : Config) : Bool :=
  config_exists && config_size_nonzero && !data.isEmpty

/-- `Runner.run_jobs` (runner.py lines 235-245) given the resolved primary suite:
run the primary sub-flow, then, only when `fail_fast` is set and the deferred suite
(defer list filtered against jobs already succeeded or failed) is non-empty, run the
deferred sub-flow.  Returns the final outcome state and `is_successful`; with an empty
suite the source returns early and `is_successful` keeps its initial `False`. -/
def run_jobs_with (shell : List String → Bool) (data : Config) (fail_fast allow_duplicates : Bool)
    (jobs_to_defer : List String) (suite : List (String × JobTable)) :
    Option (RunState × Bool) :=
  if suite.isEmpty then some (⟨[], []⟩, false)
  else
    let r1 := run_sub_flow shell fail_fast true suite ⟨[], []⟩ true
    if fail_fast then
      match prepare_job_suite data allow_duplicates jobs_to_defer
          (r1.1.successful ++ r1.1.failed) with
      | none => none
      | some deferred =>
        if deferred.isEmpty then some r1
        else some (run_sub_flow shell fail_fast false deferred r1.1 r1.2)
    else some r1

/-- `Runner.run_jobs` (runner.py lines 235-245): resolve the primary suite and run it. -/
def run_jobs (shell : List String → Bool) (data : Config) (cli_jobs : List String)
    (run_all : Bool) (jobs_to_omit : List String) (fail_fast allow_duplicates : Bool)
    (jobs_to_defer : List String) : Option (RunState × Bool) :=
  match job_suite data cli_jobs run_all jobs_to_omit allow_duplicates with
  | none => none
  | some suite => run_jobs_with shell data fail_fast allow_duplicates jobs_to_defer suite

/-- Outcome of `Runner.run_stages` (runner.py lines 176-183): either the process exits
with a code (`sys.exit(1)` on a failed stage, `sys.exit()` i.e. code 0 for the
display-only modes) or the run completes and control returns to `main`. -/
inductive ProcessResult where
  | exited (code : Nat)
  | completed (finalState : RunState) (is_successful : Bool)
deriving DecidableEq, Repr

/-- `Runner.run_stages` (runner.py lines 176-183): config handling and CLI-name
validation gate the run (`sys.exit(1)` on failure); the display-only modes
(`display_suite` / `display_all` / `jobs_to_describe`, folded into one flag here)
print and `sys.exit()` with code 0; otherwise `run_jobs` runs to completion. -/
def run_stages (shell : List String → Bool) (config_exists config_size_nonzero : Bool)
    (data : Config) (cli_jobs jobs_to_omit jobs_to_defer : List String)
    (run_all fail_fast allow_duplicates display_info : Bool) : Option ProcessResult :=
  if !(handle_config_file config_exists config_size_nonzero data
      && validate_cli_jobs data cli_jobs jobs_to_defer) then
    some (.exited 1)
  else if display_info then some (.exited 0)
  else
    (run_jobs shell data cli_jobs run_all jobs_to_omit fail_fast allow_duplicates
        jobs_to_defer).map
      (fun r => .completed r.1 r.2)

/-- The process exit code of one invocation: the code of an explicit `sys.exit`, or 0
when `Runner.run` and `main` (of koi/__main__.py) return normally — the source has no
exit call on the post-run path, whatever the aggregated outcome was. -/
def process_exit_code (shell : List String → Bool) (config_exists config_size_nonzero : Bool)
    (data : Config) (cli_jobs jobs_to_omit jobs_to_defer : List String)
    (run_all fail_fast allow_duplicates display_info : Bool) : Option Nat :=
  (run_stages shell config_exists config_size_nonzero data cli_jobs jobs_to_omit jobs_to_defer
      run_all fail_fast allow_duplicates display_info).map
    (fun r =>
      match r with
      | .exited code => code
      | .completed _ _ => 0)

/-- `Runner.skipped_jobs` (runner.py lines 55-61): jobs of the raw selected list that
are in none of the successful, failed, or omitted lists; computed once, at final
stats-reporting time. -/
def skipped_jobs (all_jobs successful failed jobs_to_omit : List String) : List String :=
  all_jobs.filter (fun job => decide (¬(job ∈ successful ∨ job ∈ failed ∨ job ∈ jobs_to_omit)))

/-- Example job body whose single command succeeds under `exShell`. -/
def exBodyA : JobTable := [("commands", Job.multi ["echo a"])]

/-- Example job body whose single command fails under `exShell`. -/
def exBodyB : JobTable := [("commands", Job.multi ["false"])]

/-- Example job body whose single command succeeds under `exShell`. -/
def exBodyC : JobTable := [("commands", Job.multi ["echo c"])]

/-- Example three-job configuration. -/
def exData : Config := [("a", exBodyA), ("b", exBodyB), ("c", exBodyC)]

/-- Example shell oracle: every command list succeeds except the one of `exBodyB`. -/
def exShell : List String → Bool := fun cmds => !(cmds == ["false"])

/-- Example `run` table whose `main` references a job name missing from `exRunBad`. -/
def exRunBadTable : JobTable := [("main", Job.multi ["a", "zz"])]

/-- Example configuration whose `run.main` fails element validation. -/
def exRunBad : Config := [("a", exBodyA), ("run", exRunBadTable)]

end Koi

namespace Koi

theorem lookup_isSome_iff_mem_keys {α : Type} (d : List (String × α)) (k : String) :
    (lookup d k).isSome = true ↔ k ∈ keys d := by
  induction d with
  | nil => simp [lookup, keys]
  | cons p rest ih =>
    obtain ⟨k', v⟩ := p
    simp only [lookup, keys, List.map_cons, List.mem_cons]
    by_cases h : k' = k
    · simp [h]
    · simp only [if_neg h]
      rw [ih]
      simp [keys]
      intro hk
      exact absurd hk.symm h

theorem containsKey_iff_mem_keys {α : Type} (d : List (String × α)) (k : String) :
    containsKey d k = true ↔ k ∈ keys d := by
  rw [containsKey, lookup_isSome_iff_mem_keys]

theorem lookup_eq_some_of_containsKey {α : Type} {d : List (String × α)} {k : String}
    (h : containsKey d k = true) : ∃ v, lookup d k = some v := by
  rw [containsKey, Option.isSome_iff_exists] at h
  exact h

end Koi

namespace Koi

theorem prepare_go_sublist (data : Config) (dup : Bool) (skip : List String) :
    ∀ (l added : List String) (s : List (String × JobTable)),
      prepare_job_suite_go data dup skip l added = some s → List.Sublist (s.map Prod.fst) l := by
  intro l
  induction l with
  | nil =>
    intro added s h
    simp [prepare_job_suite_go] at h
    simp [← h]
  | cons job rest ih =>
    intro added s h
    simp only [prepare_job_suite_go] at h
    split at h
    · exact (ih _ _ h).cons _
    · cases hl : lookup data job with
      | none => rw [hl] at h; simp at h
      | some body =>
        rw [hl] at h
        cases hr : prepare_job_suite_go data dup skip rest (job :: added) with
        | none => rw [hr] at h; simp at h
        | some s' =>
          rw [hr] at h
          simp only [Option.map_some'] at h
          obtain rfl := Option.some.inj h
          simpa using (ih _ _ hr).cons₂ job

theorem prepare_go_lookup (data : Config) (dup : Bool) (skip : List String) :
    ∀ (l added : List String) (s : List (String × JobTable)),
      prepare_job_suite_go data dup skip l added = some s →
      ∀ p ∈ s, lookup data p.1 = some p.2 := by
  intro l
  induction l with
  | nil =>
    intro added s h
    simp [prepare_job_suite_go] at h
    subst h
    simp
  | cons job rest ih =>
    intro added s h
    simp only [prepare_job_suite_go] at h
    split at h
    · exact ih _ _ h
    · cases hl : lookup data job with
      | none => rw [hl] at h; simp at h
      | some body =>
        rw [hl] at h
        cases hr : prepare_job_suite_go data dup skip rest (job :: added) with
        | none => rw [hr] at h; simp at h
        | some s' =>
          rw [hr] at h
          simp only [Option.map_some'] at h
          obtain rfl := Option.some.inj h
          intro p hp
          rcases List.mem_cons.mp hp with h1 | h2
          · rw [h1]; exact hl
          · exact ih _ _ hr p h2

theorem prepare_go_isSome (data : Config) (dup : Bool) (skip : List String) :
    ∀ (l added : List String),
      (∀ j ∈ l, j ∉ skip → containsKey data j = true) →
      (prepare_job_suite_go data dup skip l added).isSome = true := by
  intro l
  induction l with
  | nil => intro added _; simp [prepare_job_suite_go]
  | cons job rest ih =>
    intro added hmem
    simp only [prepare_job_suite_go]
    split
    · exact ih _ (fun j hj => hmem j (List.mem_cons_of_mem _ hj))
    · rename_i hcond
      have hskip : job ∉ skip := fun hs => hcond (Or.inl hs)
      obtain ⟨v, hv⟩ := lookup_eq_some_of_containsKey (hmem job (List.mem_cons_self _ _) hskip)
      rw [hv]
      have := ih (job :: added) (fun j hj => hmem j (List.mem_cons_of_mem _ hj))
      cases hr : prepare_job_suite_go data dup skip rest (job :: added) with
      | none => rw [hr] at this; simp at this
      | some s' => simp

end Koi

namespace Koi

theorem prepare_go_skip_erase (data : Config) (dup : Bool) (skip : List String)
    (j : String) (hj : j ∈ skip) :
    ∀ (l1 l2 added : List String),
      prepare_job_suite_go data dup skip (l1 ++ j :: l2) added =
      prepare_job_suite_go data dup skip (l1 ++ l2) added := by
  intro l1
  induction l1 with
  | nil =>
    intro l2 added
    have e : ([] : List String) ++ j :: l2 = j :: l2 := rfl
    rw [e, List.nil_append]
    simp only [prepare_job_suite_go]
    rw [if_pos (Or.inl hj)]
  | cons x rest ih =>
    intro l2 added
    have e1 : (x :: rest) ++ j :: l2 = x :: (rest ++ j :: l2) := rfl
    have e2 : (x :: rest) ++ l2 = x :: (rest ++ l2) := rfl
    rw [e1, e2]
    simp only [prepare_job_suite_go]
    split
    · exact ih l2 added
    · cases hl : lookup data x with
      | none => rfl
      | some body => rw [ih l2 (x :: added)]

theorem prepare_go_nodup (data : Config) (skip : List String) :
    ∀ (l added : List String) (s : List (String × JobTable)),
      prepare_job_suite_go data false skip l added = some s →
      (s.map Prod.fst).Nodup ∧ ∀ n ∈ s.map Prod.fst, n ∉ added := by
  intro l
  induction l with
  | nil =>
    intro added s h
    simp [prepare_job_suite_go] at h
    subst h
    simp
  | cons job rest ih =>
    intro added s h
    simp only [prepare_job_suite_go] at h
    split at h
    · exact ih _ _ h
    · rename_i hcond
      cases hl : lookup data job with
      | none => rw [hl] at h; simp at h
      | some body =>
        rw [hl] at h
        cases hr : prepare_job_suite_go data false skip rest (job :: added) with
        | none => rw [hr] at h; simp at h
        | some s' =>
          rw [hr] at h
          simp only [Option.map_some'] at h
          obtain rfl := Option.some.inj h
          obtain ⟨hnd, hadd⟩ := ih _ _ hr
          constructor
          · simp only [List.map_cons, List.nodup_cons]
            exact ⟨fun hmem => hadd job hmem (List.mem_cons_self _ _), hnd⟩
          · intro n hn hna
            rcases List.mem_cons.mp hn with h1 | h2
            · subst h1
              exact hcond (Or.inr ⟨hna, trivial⟩)
            · exact hadd n h2 (List.mem_cons_of_mem _ hna)

theorem prepare_go_refilter (data : Config) (dup : Bool) (skip : List String) :
    ∀ (l added : List String) (s : List (String × JobTable)),
      prepare_job_suite_go data dup skip l added = some s →
      prepare_job_suite_go data dup skip (s.map Prod.fst) added = some s := by
  intro l
  induction l with
  | nil =>
    intro added s h
    simp [prepare_job_suite_go] at h
    subst h
    simp [prepare_job_suite_go]
  | cons job rest ih =>
    intro added s h
    simp only [prepare_job_suite_go] at h
    split at h
    · exact ih _ _ h
    · rename_i hcond
      cases hl : lookup data job with
      | none => rw [hl] at h; simp at h
      | some body =>
        rw [hl] at h
        cases hr : prepare_job_suite_go data dup skip rest (job :: added) with
        | none => rw [hr] at h; simp at h
        | some s' =>
          rw [hr] at h
          simp only [Option.map_some'] at h
          obtain rfl := Option.some.inj h
          simp only [List.map_cons, prepare_job_suite_go]
          rw [if_neg hcond, hl, ih _ _ hr]
          rfl

theorem prepare_go_snoc (data : Config) (dup : Bool) (skip : List String) (j : String) :
    ∀ (l added : List String),
      prepare_job_suite_go data dup skip (l ++ [j]) added =
      (prepare_job_suite_go data dup skip l added).bind
        (fun s =>
          if j ∈ skip ∨ ((j ∈ added ∨ j ∈ s.map Prod.fst) ∧ dup = false) then some s
          else (lookup data j).map (fun b => s ++ [(j, b)])) := by
  intro l
  induction l with
  | nil =>
    intro added
    have e : ([] : List String) ++ [j] = [j] := rfl
    rw [e]
    simp only [prepare_job_suite_go, Option.some_bind, List.map_nil]
    by_cases hc : j ∈ skip ∨ (j ∈ added ∧ dup = false)
    · rw [if_pos hc, if_pos]
      rcases hc with hc | hc
      · exact Or.inl hc
      · exact Or.inr ⟨Or.inl hc.1, hc.2⟩
    · rw [if_neg hc, if_neg]
      · cases hl : lookup data j with
        | none => rfl
        | some body =>
          simp only [Option.map_some', prepare_job_suite_go]
          rfl
      · intro hc'
        apply hc
        rcases hc' with hc' | ⟨hm, hd⟩
        · exact Or.inl hc'
        · rcases hm with hm | hm
          · exact Or.inr ⟨hm, hd⟩
          · simp at hm
  | cons x rest ih =>
    intro added
    have e : (x :: rest) ++ [j] = x :: (rest ++ [j]) := rfl
    rw [e]
    simp only [prepare_job_suite_go]
    split
    · exact ih added
    · cases hl : lookup data x with
      | none => rfl
      | some body =>
        rw [ih (x :: added)]
        cases hr : prepare_job_suite_go data dup skip rest (x :: added) with
        | none => rfl
        | some s' =>
          simp only [Option.some_bind, Option.map_some']
          by_cases hc : j ∈ skip ∨ ((j ∈ x :: added ∨ j ∈ s'.map Prod.fst) ∧ dup = false)
          · rw [if_pos hc, if_pos]
            · rfl
            · rcases hc with hc | ⟨hmem, hd⟩
              · exact Or.inl hc
              · refine Or.inr ⟨?_, hd⟩
                rcases hmem with hm | hm
                · rcases List.mem_cons.mp hm with h1 | h2
                  · subst h1
                    simp
                  · exact Or.inl h2
                · simp [hm]
          · rw [if_neg hc, if_neg]
            · cases lookup data j with
              | none => rfl
              | some bj => rfl
            · intro hc'
              apply hc
              rcases hc' with hc' | ⟨hmem, hd⟩
              · exact Or.inl hc'
              · refine Or.inr ⟨?_, hd⟩
                rcases hmem with hm | hm
                · exact Or.inl (List.mem_cons_of_mem _ hm)
                · rw [List.map_cons] at hm
                  rcases List.mem_cons.mp hm with h1 | h2
                  · subst h1
                    exact Or.inl (List.mem_cons_self _ _)
                  · exact Or.inr h2

end Koi

namespace Koi

theorem rsf_extend (shell : List String → Bool) (ff imf : Bool) :
    ∀ (suite : List (String × JobTable)) (st : RunState) (ok : Bool),
      ∃ ns nf,
        (run_sub_flow shell ff imf suite st ok).1.successful = st.successful ++ ns ∧
        (run_sub_flow shell ff imf suite st ok).1.failed = st.failed ++ nf ∧
        (∀ x ∈ ns, x ∈ suite.map Prod.fst) ∧ (∀ x ∈ nf, x ∈ suite.map Prod.fst) := by
  intro suite
  induction suite with
  | nil =>
    intro st ok
    exact ⟨[], [], by simp [run_sub_flow], by simp [run_sub_flow], by simp, by simp⟩
  | cons p rest ih =>
    intro st ok
    obtain ⟨table, table_entries⟩ := p
    cases hb : build_commands_list table table_entries with
    | error e =>
      simp only [run_sub_flow, hb]
      split
      · exact ⟨[], [table], by simp, by simp, by simp, by simp⟩
      · obtain ⟨ns, nf, h1, h2, h3, h4⟩ := ih ⟨st.successful, st.failed ++ [table]⟩ false
        refine ⟨ns, table :: nf, by simpa using h1, by simpa using h2, ?_, ?_⟩
        · intro x hx
          exact List.mem_cons_of_mem _ (h3 x hx)
        · intro x hx
          rcases List.mem_cons.mp hx with h | h
          · simp [h]
          · exact List.mem_cons_of_mem _ (h4 x h)
    | ok cmds =>
      by_cases hs : shell cmds = true
      · simp only [run_sub_flow, hb]
        rw [if_pos hs]
        obtain ⟨ns, nf, h1, h2, h3, h4⟩ := ih ⟨st.successful ++ [table], st.failed⟩ ok
        refine ⟨table :: ns, nf, by simpa using h1, by simpa using h2, ?_, ?_⟩
        · intro x hx
          rcases List.mem_cons.mp hx with h | h
          · simp [h]
          · exact List.mem_cons_of_mem _ (h3 x h)
        · intro x hx
          exact List.mem_cons_of_mem _ (h4 x hx)
      · simp only [run_sub_flow, hb]
        rw [if_neg hs]
        split
        · exact ⟨[], [table], by simp, by simp, by simp, by simp⟩
        · obtain ⟨ns, nf, h1, h2, h3, h4⟩ := ih ⟨st.successful, st.failed ++ [table]⟩ false
          refine ⟨ns, table :: nf, by simpa using h1, by simpa using h2, ?_, ?_⟩
          · intro x hx
            exact List.mem_cons_of_mem _ (h3 x hx)
          · intro x hx
            rcases List.mem_cons.mp hx with h | h
            · simp [h]
            · exact List.mem_cons_of_mem _ (h4 x h)

theorem rsf_mem_preserved (shell : List String → Bool) (ff imf : Bool)
    (suite : List (String × JobTable)) (st : RunState) (ok : Bool) (x : String) :
    (x ∈ st.successful → x ∈ (run_sub_flow shell ff imf suite st ok).1.successful) ∧
    (x ∈ st.failed → x ∈ (run_sub_flow shell ff imf suite st ok).1.failed) := by
  obtain ⟨ns, nf, h1, h2, _, _⟩ := rsf_extend shell ff imf suite st ok
  rw [h1, h2]
  exact ⟨fun h => List.mem_append_left _ h, fun h => List.mem_append_left _ h⟩

theorem rsf_deferred_covers (shell : List String → Bool) (ff : Bool) :
    ∀ (suite : List (String × JobTable)) (st : RunState) (ok : Bool),
      ∀ p ∈ suite,
        p.1 ∈ (run_sub_flow shell ff false suite st ok).1.successful ∨
        p.1 ∈ (run_sub_flow shell ff false suite st ok).1.failed := by
  intro suite
  induction suite with
  | nil =>
    intro st ok p hp
    simp at hp
  | cons q rest ih =>
    intro st ok p hp
    obtain ⟨table, table_entries⟩ := q
    cases hb : build_commands_list table table_entries with
    | error e =>
      simp only [run_sub_flow, hb]
      rw [if_neg (by simp)]
      rcases List.mem_cons.mp hp with h | h
      · subst h
        right
        exact (rsf_mem_preserved shell ff false rest ⟨st.successful, st.failed ++ [table]⟩
          false table).2 (by simp)
      · exact ih _ _ p h
    | ok cmds =>
      by_cases hs : shell cmds = true
      · simp only [run_sub_flow, hb]
        rw [if_pos hs]
        rcases List.mem_cons.mp hp with h | h
        · subst h
          left
          exact (rsf_mem_preserved shell ff false rest ⟨st.successful ++ [table], st.failed⟩
            ok table).1 (by simp)
        · exact ih _ _ p h
      · simp only [run_sub_flow, hb]
        rw [if_neg hs, if_neg (by simp)]
        rcases List.mem_cons.mp hp with h | h
        · subst h
          right
          exact (rsf_mem_preserved shell ff false rest ⟨st.successful, st.failed ++ [table]⟩
            false table).2 (by simp)
        · exact ih _ _ p h

theorem rsf_fail_fast_halt (shell : List String → Bool) :
    ∀ (pre : List (String × JobTable)) (t : String) (e : JobTable)
      (post : List (String × JobTable)) (st : RunState) (ok : Bool),
      (∀ p ∈ pre, job_succeeds shell p = true) →
      job_succeeds shell (t, e) = false →
      run_sub_flow shell true true (pre ++ (t, e) :: post) st ok =
        (⟨st.successful ++ pre.map Prod.fst, st.failed ++ [t]⟩, false) := by
  intro pre
  induction pre with
  | nil =>
    intro t e post st ok _ hfail
    have e0 : ([] : List (String × JobTable)) ++ (t, e) :: post = (t, e) :: post := rfl
    rw [e0]
    cases hb : build_commands_list t e with
    | error err =>
      simp [run_sub_flow, hb]
    | ok cmds =>
      have hs : shell cmds = false := by
        simpa [job_succeeds, hb] using hfail
      simp [run_sub_flow, hb, hs]
  | cons q rest ih =>
    intro t e post st ok hpre hfail
    obtain ⟨table, table_entries⟩ := q
    have e0 : ((table, table_entries) :: rest) ++ (t, e) :: post =
        (table, table_entries) :: (rest ++ (t, e) :: post) := rfl
    rw [e0]
    have hq := hpre (table, table_entries) (List.mem_cons_self _ _)
    cases hb : build_commands_list table table_entries with
    | error err => simp [job_succeeds, hb] at hq
    | ok cmds =>
      have hs : shell cmds = true := by
        simpa [job_succeeds, hb] using hq
      simp only [run_sub_flow, hb]
      rw [if_pos hs]
      rw [ih t e post ⟨st.successful ++ [table], st.failed⟩ ok
        (fun p hp => hpre p (List.mem_cons_of_mem _ hp)) hfail]
      simp

end Koi

namespace Koi

theorem prepare_all_ok_inv (data : Config) (jobs : JobTable) (l : List String)
    (h : prepare_all_jobs_from_config data jobs = .ok l) :
    Table.RUN ∉ l ∧ ∀ j ∈ l, containsKey data j = true := by
  unfold prepare_all_jobs_from_config at h
  split at h
  · simp at h
  · split at h
    · simp at h
    · split at h
      · simp at h
      · rename_i l'
        split at h
        · simp at h
        · rename_i hrun
          split at h
          · rename_i hfilter
            obtain rfl := Except.ok.inj h
            refine ⟨hrun, ?_⟩
            intro j hj
            rw [List.isEmpty_iff] at hfilter
            have := List.filter_eq_nil_iff.mp hfilter j hj
            simpa using this
          · simp at h

theorem validate_cli_jobs_spec (data : Config) (cli_jobs jobs_to_defer : List String)
    (h : validate_cli_jobs data cli_jobs jobs_to_defer = true) :
    ∀ j, j ∈ cli_jobs ∨ j ∈ jobs_to_defer → containsKey data j = true := by
  intro j hj
  unfold validate_cli_jobs at h
  split at h
  · rename_i hemp
    simp only [Bool.and_eq_true, List.isEmpty_iff] at hemp
    obtain ⟨h1, h2⟩ := hemp
    subst h1; subst h2
    simp at hj
  · rw [List.all_eq_true] at h
    exact h j (List.mem_append.mpr hj)

theorem job_suite_isSome (data : Config) (cli_jobs : List String) (run_all : Bool)
    (jobs_to_omit : List String) (dup : Bool)
    (hcli : ∀ j ∈ cli_jobs, containsKey data j = true) :
    (job_suite data cli_jobs run_all jobs_to_omit dup).isSome = true := by
  unfold job_suite
  split
  · exact prepare_go_isSome data dup jobs_to_omit cli_jobs [] (fun j hj _ => hcli j hj)
  · split
    · apply prepare_go_isSome
      intro j hj _
      rw [containsKey_iff_mem_keys]
      exact (List.mem_filter.mp hj).1
    · split
      · rename_i run_table hrun
        split
        · simp
        · rename_i main hp
          obtain ⟨_, hmain⟩ := prepare_all_ok_inv data run_table main hp
          exact prepare_go_isSome data dup jobs_to_omit main [] (fun j hj _ => hmain j hj)
      · apply prepare_go_isSome
        intro j hj _
        rw [containsKey_iff_mem_keys]
        exact hj

theorem run_jobs_with_isSome (shell : List String → Bool) (data : Config)
    (fail_fast dup : Bool) (jobs_to_defer : List String) (suite : List (String × JobTable))
    (hdefer : ∀ j ∈ jobs_to_defer, containsKey data j = true) :
    (run_jobs_with shell data fail_fast dup jobs_to_defer suite).isSome = true := by
  unfold run_jobs_with
  split
  · rfl
  · split
    · dsimp only
      split
      · rename_i hm
        have hs := prepare_go_isSome data dup
          ((run_sub_flow shell fail_fast true suite ⟨[], []⟩ true).1.successful ++
            (run_sub_flow shell fail_fast true suite ⟨[], []⟩ true).1.failed)
          jobs_to_defer [] (fun j hj _ => hdefer j hj)
        rw [prepare_job_suite] at hm
        rw [hm] at hs
        simp at hs
      · split
        · rfl
        · rfl
    · rfl

end Koi

namespace Koi

/-- C4: For every configuration and selection inputs, the raw job list is chosen by the
first matching rule — an explicit CLI job list verbatim; otherwise, with the run-all flag
set, all configuration keys except the reserved run key in declaration order; otherwise,
with a run key present, the validated run.main sequence (the empty suite on a validation
failure); otherwise all configuration keys in declaration order — and the resolved suite
is that raw list filtered by `prepare_job_suite`. -/
theorem C4_selection_precedence (data : Config) (cli_jobs : List String) (run_all : Bool)
    (jobs_to_omit : List String) (dup : Bool) :
    (cli_jobs ≠ [] →
      job_suite data cli_jobs run_all jobs_to_omit dup =
        prepare_job_suite data dup cli_jobs jobs_to_omit) ∧
    (cli_jobs = [] → run_all = true →
      job_suite data cli_jobs run_all jobs_to_omit dup =
        prepare_job_suite data dup ((keys data).filter (fun job => !(job = Table.RUN)))
          jobs_to_omit) ∧
    (cli_jobs = [] → run_all = false →
      ∀ run_table, lookup data Table.RUN = some run_table →
        (∀ main, prepare_all_jobs_from_config data run_table = .ok main →
          job_suite data cli_jobs run_all jobs_to_omit dup =
            prepare_job_suite data dup main jobs_to_omit) ∧
        (∀ err, prepare_all_jobs_from_config data run_table = .error err →
          job_suite data cli_jobs run_all jobs_to_omit dup = some [])) ∧
    (cli_jobs = [] → run_all = false → lookup data Table.RUN = none →
      job_suite data cli_jobs run_all jobs_to_omit dup =
        prepare_job_suite data dup (keys data) jobs_to_omit) := by
  refine ⟨?_, ?_, ?_, ?_⟩
  · intro h
    unfold job_suite
    rw [if_pos]
    simpa using h
  · intro h1 h2
    subst h1
    subst h2
    unfold job_suite
    rfl
  · intro h1 h2 run_table hrt
    subst h1
    subst h2
    constructor
    · intro main hmain
      unfold job_suite
      simp only [List.isEmpty_nil, Bool.not_true, Bool.false_eq_true, if_false, hrt, hmain]
    · intro err herr
      unfold job_suite
      simp only [List.isEmpty_nil, Bool.not_true, Bool.false_eq_true, if_false, hrt, herr]
  · intro h1 h2 hrt
    subst h1
    subst h2
    unfold job_suite
    simp only [List.isEmpty_nil, Bool.not_true, Bool.false_eq_true, if_false, hrt]

/-- C4 witness: the precedence equations hold at concrete inputs — an explicit CLI
selection and a run-all invocation over the example configuration. -/
theorem C4_selection_precedence_witness :
    job_suite exData ["b"] false [] false = prepare_job_suite exData false ["b"] [] ∧
    job_suite exData [] true [] false =
      prepare_job_suite exData false ((keys exData).filter (fun job => !(job = Table.RUN))) [] :=
  ⟨(C4_selection_precedence exData ["b"] false [] false).1 (by decide),
   (C4_selection_precedence exData [] true [] false).2.1 rfl rfl⟩

end Koi

namespace Koi

/-- C5: Whenever resolution delegates to the reserved run table, exactly these rules are
checked in order, the first failure aborting with that specific error: the main key is
present; main is non-empty; main is a sequence (not a bare string); main does not contain
the name run; every element of main is a configuration key. -/
theorem C5_run_directive_validation (data : Config) (run_table : JobTable) :
    (lookup run_table Table.MAIN = none →
      prepare_all_jobs_from_config data run_table = .error .missingMain) ∧
    (∀ main, lookup run_table Table.MAIN = some main → jobTruthy main = false →
      prepare_all_jobs_from_config data run_table = .error .emptyMain) ∧
    (∀ s, lookup run_table Table.MAIN = some (.single s) → jobTruthy (.single s) = true →
      prepare_all_jobs_from_config data run_table = .error .mainNotList) ∧
    (∀ l, lookup run_table Table.MAIN = some (.multi l) → jobTruthy (.multi l) = true →
      Table.RUN ∈ l →
      prepare_all_jobs_from_config data run_table = .error .mainContainsRun) ∧
    (∀ l, lookup run_table Table.MAIN = some (.multi l) → jobTruthy (.multi l) = true →
      Table.RUN ∉ l → l.filter (fun job => !containsKey data job) ≠ [] →
      prepare_all_jobs_from_config data run_table =
        .error (.invalidJobs (l.filter (fun job => !containsKey data job)))) ∧
    (∀ l, lookup run_table Table.MAIN = some (.multi l) → jobTruthy (.multi l) = true →
      Table.RUN ∉ l → l.filter (fun job => !containsKey data job) = [] →
      prepare_all_jobs_from_config data run_table = .ok l) := by
  refine ⟨?_, ?_, ?_, ?_, ?_, ?_⟩
  · intro h
    unfold prepare_all_jobs_from_config
    simp only [h]
  · intro main hm ht
    unfold prepare_all_jobs_from_config
    simp only [hm, ht]
    rw [if_pos trivial]
  · intro s hm ht
    unfold prepare_all_jobs_from_config
    simp only [hm]
    rw [if_neg (by simp [ht])]
  · intro l hm ht hr
    unfold prepare_all_jobs_from_config
    simp only [hm]
    rw [if_neg (by simp [ht]), if_pos hr]
  · intro l hm ht hr hf
    unfold prepare_all_jobs_from_config
    simp only [hm]
    rw [if_neg (by simp [ht]), if_neg hr, if_neg (by simpa using hf)]
  · intro l hm ht hr hf
    unfold prepare_all_jobs_from_config
    simp only [hm]
    rw [if_neg (by simp [ht]), if_neg hr, if_pos (by simpa using hf)]

/-- C5 witness: each validation rule fires at a concrete run table, in order, over the
example configuration. -/
theorem C5_run_directive_validation_witness :
    prepare_all_jobs_from_config exData [] = .error .missingMain ∧
    prepare_all_jobs_from_config exData [("main", Job.multi [])] = .error .emptyMain ∧
    prepare_all_jobs_from_config exData [("main", Job.single ("a"))] = .error .mainNotList ∧
    prepare_all_jobs_from_config exData [("main", Job.multi ["run"])] =
      .error .mainContainsRun ∧
    prepare_all_jobs_from_config exData [("main", Job.multi ["a", "zz"])] =
      .error (.invalidJobs ["zz"]) ∧
    prepare_all_jobs_from_config exData [("main", Job.multi ["c", "a"])] = .ok ["c", "a"] :=
  ⟨(C5_run_directive_validation exData []).1 rfl,
   (C5_run_directive_validation exData [("main", Job.multi [])]).2.1 (Job.multi []) rfl rfl,
   (C5_run_directive_validation exData [("main", Job.single ("a"))]).2.2.1 ("a") rfl rfl,
   (C5_run_directive_validation exData [("main", Job.multi ["run"])]).2.2.2.1 ["run"] rfl rfl
     (by decide),
   (C5_run_directive_validation exData [("main", Job.multi ["a", "zz"])]).2.2.2.2.1
     ["a", "zz"] rfl rfl (by decide) (by decide),
   (C5_run_directive_validation exData [("main", Job.multi ["c", "a"])]).2.2.2.2.2
     ["c", "a"] rfl rfl (by decide) (by decide)⟩

end Koi

namespace Koi

theorem prepare_go_no_skip (data : Config) (dup : Bool) (skip : List String) :
    ∀ (l added : List String) (s : List (String × JobTable)),
      prepare_job_suite_go data dup skip l added = some s →
      ∀ p ∈ s, p.1 ∉ skip := by
  intro l
  induction l with
  | nil =>
    intro added s h
    simp [prepare_job_suite_go] at h
    subst h
    simp
  | cons job rest ih =>
    intro added s h
    simp only [prepare_job_suite_go] at h
    split at h
    · exact ih _ _ h
    · rename_i hcond
      cases hl : lookup data job with
      | none => rw [hl] at h; simp at h
      | some body =>
        rw [hl] at h
        cases hr : prepare_job_suite_go data dup skip rest (job :: added) with
        | none => rw [hr] at h; simp at h
        | some s' =>
          rw [hr] at h
          simp only [Option.map_some'] at h
          obtain rfl := Option.some.inj h
          intro p hp
          rcases List.mem_cons.mp hp with h1 | h2
          · subst h1
            exact fun hs => hcond (Or.inl hs)
          · exact ih _ _ hr p h2

/-- C6: The resolved suite is produced by iterating the raw list in order, dropping a
name that is in the omit-list or already added while duplicates are disallowed, and
otherwise appending the name with its configuration body: the suite's names form a
sublist of the raw list (filtering never reorders), each entry carries
`Configuration[name]`, no omitted name survives, the names are duplicate-free when
duplicates are disallowed, and an omitted occurrence is dropped before duplicate
tracking — the result is as if that occurrence were absent from the raw list. -/
theorem C6_suite_filtering (data : Config) (dup : Bool) (skip : List String) :
    (∀ jobs_list suite, prepare_job_suite data dup jobs_list skip = some suite →
      List.Sublist (suite.map Prod.fst) jobs_list ∧
      (∀ p ∈ suite, lookup data p.1 = some p.2) ∧
      (∀ p ∈ suite, p.1 ∉ skip) ∧
      (dup = false → (suite.map Prod.fst).Nodup)) ∧
    (∀ l1 l2 j, j ∈ skip →
      prepare_job_suite data dup (l1 ++ j :: l2) skip =
        prepare_job_suite data dup (l1 ++ l2) skip) := by
  constructor
  · intro jobs_list suite h
    refine ⟨prepare_go_sublist data dup skip jobs_list [] suite h,
      prepare_go_lookup data dup skip jobs_list [] suite h,
      prepare_go_no_skip data dup skip jobs_list [] suite h, ?_⟩
    intro hd
    subst hd
    exact (prepare_go_nodup data skip jobs_list [] suite h).1
  · intro l1 l2 j hj
    exact prepare_go_skip_erase data dup skip j hj l1 l2 []

/-- C6 witness: the filtering facts at a concrete raw list with an omitted, duplicated
name over the example configuration. -/
theorem C6_suite_filtering_witness :
    List.Sublist (([("a", exBodyA), ("c", exBodyC)] : List (String × JobTable)).map Prod.fst)
      ["a", "b", "c", "a"] ∧
    prepare_job_suite exData false (["a"] ++ "b" :: ["c"]) ["b"] =
      prepare_job_suite exData false (["a"] ++ ["c"]) ["b"] :=
  ⟨((C6_suite_filtering exData false ["b"]).1 ["a", "b", "c", "a"]
      [("a", exBodyA), ("c", exBodyC)] (by decide)).1,
   (C6_suite_filtering exData false ["b"]).2 ["a"] ["c"] ("b") (by decide)⟩

/-- C9: Suite resolution is idempotent — refiltering a resolved suite's names returns
the same suite; appending a name already added earlier is a no-op when duplicates are
disallowed; with duplicates allowed, an appended occurrence of a non-omitted name is
kept, in place, at the end. -/
theorem C9_resolution_idempotent (data : Config) (skip : List String) :
    (∀ dup jobs_list suite, prepare_job_suite data dup jobs_list skip = some suite →
      prepare_job_suite data dup (suite.map Prod.fst) skip = some suite) ∧
    (∀ jobs_list suite j, prepare_job_suite data false jobs_list skip = some suite →
      j ∈ suite.map Prod.fst →
      prepare_job_suite data false (jobs_list ++ [j]) skip = some suite) ∧
    (∀ jobs_list suite j b, prepare_job_suite data true jobs_list skip = some suite →
      j ∉ skip → lookup data j = some b →
      prepare_job_suite data true (jobs_list ++ [j]) skip = some (suite ++ [(j, b)])) := by
  refine ⟨?_, ?_, ?_⟩
  · intro dup jobs_list suite h
    exact prepare_go_refilter data dup skip jobs_list [] suite h
  · intro jobs_list suite j h hj
    unfold prepare_job_suite at h ⊢
    rw [prepare_go_snoc data false skip j jobs_list [], h]
    simp only [Option.some_bind]
    rw [if_pos (Or.inr ⟨Or.inr hj, trivial⟩)]
  · intro jobs_list suite j b h hjs hb
    unfold prepare_job_suite at h ⊢
    rw [prepare_go_snoc data true skip j jobs_list [], h]
    simp only [Option.some_bind]
    rw [if_neg, hb]
    · rfl
    · intro hc
      rcases hc with hc | ⟨_, hd⟩
      · exact hjs hc
      · simp at hd

/-- C9 witness: idempotence and the two append behaviours at concrete inputs over the
example configuration. -/
theorem C9_resolution_idempotent_witness :
    prepare_job_suite exData false
        (([("a", exBodyA), ("c", exBodyC)] : List (String × JobTable)).map Prod.fst) [] =
      some [("a", exBodyA), ("c", exBodyC)] ∧
    prepare_job_suite exData false (["a", "c"] ++ ["a"]) [] =
      some [("a", exBodyA), ("c", exBodyC)] ∧
    prepare_job_suite exData true (["a", "c"] ++ ["a"]) [] =
      some ([("a", exBodyA), ("c", exBodyC)] ++ [("a", exBodyA)]) :=
  ⟨(C9_resolution_idempotent exData []).1 false ["a", "c"]
      [("a", exBodyA), ("c", exBodyC)] (by decide),
   (C9_resolution_idempotent exData []).2.1 ["a", "c"]
      [("a", exBodyA), ("c", exBodyC)] ("a") (by decide) (by decide),
   (C9_resolution_idempotent exData []).2.2 ["a", "c"]
      [("a", exBodyA), ("c", exBodyC)] ("a") exBodyA (by decide) (by decide) (by decide)⟩

end Koi

namespace Koi

theorem prepare_go_skip_irrelevant (data : Config) (dup : Bool)
    (skip1 skip2 : List String) (x : String) :
    ∀ (l added : List String), x ∉ l →
      prepare_job_suite_go data dup (skip1 ++ x :: skip2) l added =
      prepare_job_suite_go data dup (skip1 ++ skip2) l added := by
  intro l
  induction l with
  | nil => intro added _; rfl
  | cons job rest ih =>
    intro added hx
    have hne : job ≠ x := fun h => hx (h ▸ List.mem_cons_self _ _)
    have hxr : x ∉ rest := fun h => hx (List.mem_cons_of_mem _ h)
    have hiff : job ∈ skip1 ++ x :: skip2 ↔ job ∈ skip1 ++ skip2 := by
      simp only [List.mem_append, List.mem_cons]
      constructor
      · rintro (h | h | h)
        · exact Or.inl h
        · exact absurd h hne
        · exact Or.inr h
      · rintro (h | h)
        · exact Or.inl h
        · exact Or.inr (Or.inr h)
    simp only [prepare_job_suite_go]
    by_cases hc : job ∈ skip1 ++ skip2 ∨ (job ∈ added ∧ dup = false)
    · rw [if_pos, if_pos hc]
      · exact ih added hxr
      · rcases hc with h | h
        · exact Or.inl (hiff.mpr h)
        · exact Or.inr h
    · rw [if_neg, if_neg hc]
      · cases hl : lookup data job with
        | none => rfl
        | some body => rw [ih (job :: added) hxr]
      · intro hc'
        apply hc
        rcases hc' with h | h
        · exact Or.inl (hiff.mp h)
        · exact Or.inr h

theorem validate_cli_jobs_false (data : Config) (cli_jobs jobs_to_defer : List String)
    (j : String) (hj : j ∈ cli_jobs ∨ j ∈ jobs_to_defer)
    (hk : containsKey data j = false) :
    validate_cli_jobs data cli_jobs jobs_to_defer = false := by
  unfold validate_cli_jobs
  split
  · rename_i hemp
    simp only [Bool.and_eq_true, List.isEmpty_iff] at hemp
    obtain ⟨h1, h2⟩ := hemp
    subst h1
    subst h2
    simp at hj
  · cases hall : (cli_jobs ++ jobs_to_defer).all (fun job => containsKey data job) with
    | false => rfl
    | true =>
      rw [List.all_eq_true] at hall
      have h2 := hall j (List.mem_append.mpr hj)
      rw [hk] at h2
      simp at h2

/-- C7: For all configurations and selection inputs (explicit CLI names having passed
the argument-level checker, which rejects the reserved name), the resolved primary suite
contains no entry whose job name equals the reserved identifier run. -/
theorem C7_no_reserved_run_in_suite (data : Config) (cli_jobs : List String)
    (run_all : Bool) (jobs_to_omit : List String) (dup : Bool)
    (suite : List (String × JobTable))
    (hcli : ∀ j ∈ cli_jobs, j ≠ Table.RUN)
    (h : job_suite data cli_jobs run_all jobs_to_omit dup = some suite) :
    ∀ p ∈ suite, p.1 ≠ Table.RUN := by
  intro p hp
  have hmem : p.1 ∈ suite.map Prod.fst := List.mem_map_of_mem Prod.fst hp
  unfold job_suite at h
  split at h
  · have hsub := prepare_go_sublist data dup jobs_to_omit cli_jobs [] suite h
    exact hcli p.1 (hsub.subset hmem)
  · split at h
    · have hsub := prepare_go_sublist data dup jobs_to_omit
        ((keys data).filter (fun job => !(job = Table.RUN))) [] suite h
      have hf := List.mem_filter.mp (hsub.subset hmem)
      simpa using hf.2
    · split at h
      · rename_i run_table hrt
        split at h
        · obtain rfl := Option.some.inj h
          simp at hp
        · rename_i main hmain
          have hsub := prepare_go_sublist data dup jobs_to_omit main [] suite h
          have hrun := (prepare_all_ok_inv data run_table main hmain).1
          intro he
          exact hrun (he ▸ hsub.subset hmem)
      · rename_i hrt
        have hsub := prepare_go_sublist data dup jobs_to_omit (keys data) [] suite h
        have hk : p.1 ∈ keys data := hsub.subset hmem
        intro he
        rw [he] at hk
        have hsome := (lookup_isSome_iff_mem_keys data Table.RUN).mpr hk
        rw [hrt] at hsome
        simp at hsome

/-- C7 witness: with the defaulting selection over a configuration that has a run table,
the resolved suite avoids the reserved name at a concrete input. -/
theorem C7_no_reserved_run_in_suite_witness :
    Prod.fst (("a"), exBodyA) ≠ Table.RUN :=
  C7_no_reserved_run_in_suite exRunBad [] true [] false [(("a"), exBodyA)]
    (by decide) (by decide) (("a"), exBodyA) (by decide)

/-- C10: Names in the omit-list are never validated against the configuration — an
omit-list entry that is not a configuration key causes no error and the suite is the
same as if the entry were absent — while an explicit-selection or defer-list name
missing from the configuration makes `run_stages` exit with code 1 before execution. -/
theorem C10_omit_unvalidated (data : Config) (dup : Bool) :
    (∀ jobs_list skip, (∀ j ∈ jobs_list, containsKey data j = true) →
      (prepare_job_suite data dup jobs_list skip).isSome = true) ∧
    (∀ jobs_list skip1 skip2 x, (∀ j ∈ jobs_list, containsKey data j = true) →
      containsKey data x = false →
      prepare_job_suite data dup jobs_list (skip1 ++ x :: skip2) =
        prepare_job_suite data dup jobs_list (skip1 ++ skip2)) ∧
    (∀ (shell : List String → Bool) (config_exists config_size_nonzero : Bool)
        (cli_jobs jobs_to_omit jobs_to_defer : List String)
        (run_all fail_fast display_info : Bool) (j : String),
      (j ∈ cli_jobs ∨ j ∈ jobs_to_defer) → containsKey data j = false →
      run_stages shell config_exists config_size_nonzero data cli_jobs jobs_to_omit
        jobs_to_defer run_all fail_fast dup display_info = some (.exited 1)) := by
  refine ⟨?_, ?_, ?_⟩
  · intro jobs_list skip hall
    exact prepare_go_isSome data dup skip jobs_list [] (fun j hj _ => hall j hj)
  · intro jobs_list skip1 skip2 x hall hx
    have hxl : x ∉ jobs_list := by
      intro hmem
      rw [hall x hmem] at hx
      simp at hx
    exact prepare_go_skip_irrelevant data dup skip1 skip2 x jobs_list [] hxl
  · intro shell config_exists config_size_nonzero cli_jobs jobs_to_omit jobs_to_defer
      run_all fail_fast display_info j hj hk
    have hv := validate_cli_jobs_false data cli_jobs jobs_to_defer j hj hk
    unfold run_stages
    rw [if_pos (by simp [hv])]

/-- C10 witness: an unknown omit-list entry is harmless at a concrete input, while the
same unknown name as an explicit selection exits with code 1. -/
theorem C10_omit_unvalidated_witness :
    prepare_job_suite exData false ["a", "c"] (["b"] ++ "zz" :: []) =
      prepare_job_suite exData false ["a", "c"] (["b"] ++ []) ∧
    run_stages exShell true true exData ["zz"] [] [] false false false false =
      some (.exited 1) :=
  ⟨(C10_omit_unvalidated exData false).2.1 ["a", "c"] ["b"] [] ("zz")
      (by decide) (by decide),
   (C10_omit_unvalidated exData false).2.2 exShell true true ["zz"] [] [] false false
      false ("zz") (Or.inl (by decide)) (by decide)⟩

end Koi

namespace Koi

end Koi

namespace Koi

end Koi

namespace Koi

end Koi

namespace Koi

theorem run_jobs_isSome (shell : List String → Bool) (data : Config)
    (cli_jobs : List String) (run_all : Bool) (jobs_to_omit : List String)
    (fail_fast dup : Bool) (jobs_to_defer : List String)
    (hcli : ∀ j ∈ cli_jobs, containsKey data j = true)
    (hdefer : ∀ j ∈ jobs_to_defer, containsKey data j = true) :
    (run_jobs shell data cli_jobs run_all jobs_to_omit fail_fast dup
      jobs_to_defer).isSome = true := by
  unfold run_jobs
  cases hs : job_suite data cli_jobs run_all jobs_to_omit dup with
  | none =>
    have := job_suite_isSome data cli_jobs run_all jobs_to_omit dup hcli
    rw [hs] at this
    simp at this
  | some suite => exact run_jobs_with_isSome shell data fail_fast dup jobs_to_defer suite hdefer

/-- C1 (amended): the process exit code is 1 exactly when the configuration file check
fails (missing, empty, or decoding to an empty mapping) or an explicit-selection or
defer-list name is unknown; in every other case — including a failed run.main
validation and failed jobs — the process exits with code 0, the run's failure being
visible only in the logged statistics.  (As stated the claim is refuted by
`C1_counterexample`: the source has no exit call on the post-run path.) -/
theorem C1_exit_code_amended (shell : List String → Bool)
    (config_exists config_size_nonzero : Bool) (data : Config)
    (cli_jobs jobs_to_omit jobs_to_defer : List String)
    (run_all fail_fast dup display_info : Bool) :
    process_exit_code shell config_exists config_size_nonzero data cli_jobs jobs_to_omit
        jobs_to_defer run_all fail_fast dup display_info =
      some (if (handle_config_file config_exists config_size_nonzero data &&
        validate_cli_jobs data cli_jobs jobs_to_defer) = true then 0 else 1) := by
  unfold process_exit_code run_stages
  cases hxx : (handle_config_file config_exists config_size_nonzero data &&
      validate_cli_jobs data cli_jobs jobs_to_defer) with
  | false => simp
  | true =>
    rw [if_neg (by simp)]
    cases display_info with
    | true => simp
    | false =>
      rw [if_neg (by simp)]
      have hv : validate_cli_jobs data cli_jobs jobs_to_defer = true := by
        rw [Bool.and_eq_true] at hxx
        exact hxx.2
      have hcli : ∀ j ∈ cli_jobs, containsKey data j = true :=
        fun j hj => validate_cli_jobs_spec data cli_jobs jobs_to_defer hv j (Or.inl hj)
      have hdefer : ∀ j ∈ jobs_to_defer, containsKey data j = true :=
        fun j hj => validate_cli_jobs_spec data cli_jobs jobs_to_defer hv j (Or.inr hj)
      obtain ⟨r, hr⟩ := Option.isSome_iff_exists.mp
        (run_jobs_isSome shell data cli_jobs run_all jobs_to_omit fail_fast dup
          jobs_to_defer hcli hdefer)
      rw [hr]
      simp

/-- C1 counterexample: a run whose only job fails, and a run whose run.main references
an unknown job, both terminate with exit code 0, where the claim requires a non-zero
exit code on any job failure or run.main validation error. -/
theorem C1_counterexample :
    run_stages exShell true true exData ["b"] [] [] false false false false =
      some (.completed ⟨[], ["b"]⟩ false) ∧
    process_exit_code exShell true true exData ["b"] [] [] false false false false =
      some 0 ∧
    lookup exRunBad Table.RUN = some exRunBadTable ∧
    prepare_all_jobs_from_config exRunBad exRunBadTable = .error (.invalidJobs ["zz"]) ∧
    run_stages exShell true true exRunBad [] [] [] false false false false =
      some (.completed ⟨[], []⟩ false) ∧
    process_exit_code exShell true true exRunBad [] [] [] false false false false =
      some 0 :=
  ⟨rfl, rfl, rfl, rfl, rfl, rfl⟩

end Koi

namespace Koi

/-- C2 (amended): with fail-fast set, when job k of the primary suite fails (in command
assembly or shell execution) after jobs 1..k-1 all succeeded, the primary flow halts
with exactly those outcomes — jobs k+1..n are never built or executed (the result does
not depend on them); the deferred flow always covers every one of its jobs, a deferred
failure never halting subsequent deferred jobs; and any job of the halted tail whose
name is distinct from the earlier primary names, the failed job, the defer-list and the
omit-list is classified as skipped.  (As stated the claim is refuted by
`C2_counterexample`: a halted-tail job that also appears in the defer-list is re-run by
the deferred suite and ends up classified successful, not skipped.) -/
theorem C2_fail_fast_amended (shell : List String → Bool) (data : Config) (dup : Bool)
    (jobs_to_defer jobs_to_omit all_jobs : List String)
    (pre : List (String × JobTable)) (t : String) (e : JobTable)
    (post : List (String × JobTable))
    (hpre : ∀ p ∈ pre, job_succeeds shell p = true)
    (hfail : job_succeeds shell (t, e) = false) :
    run_sub_flow shell true true (pre ++ (t, e) :: post) ⟨[], []⟩ true =
      (⟨pre.map Prod.fst, [t]⟩, false) ∧
    (∀ (dsuite : List (String × JobTable)) (st : RunState) (ok : Bool), ∀ p ∈ dsuite,
      p.1 ∈ (run_sub_flow shell true false dsuite st ok).1.successful ∨
      p.1 ∈ (run_sub_flow shell true false dsuite st ok).1.failed) ∧
    (∀ (stF : RunState) (okF : Bool) (j : String),
      run_jobs_with shell data true dup jobs_to_defer (pre ++ (t, e) :: post) =
        some (stF, okF) →
      j ∈ post.map Prod.fst → j ∉ pre.map Prod.fst → j ≠ t → j ∉ jobs_to_defer →
      j ∈ all_jobs → j ∉ jobs_to_omit →
      j ∈ skipped_jobs all_jobs stF.successful stF.failed jobs_to_omit) := by
  have h1 : run_sub_flow shell true true (pre ++ (t, e) :: post) ⟨[], []⟩ true =
      (⟨pre.map Prod.fst, [t]⟩, false) := by
    have := rsf_fail_fast_halt shell pre t e post ⟨[], []⟩ true hpre hfail
    simpa using this
  refine ⟨h1, fun dsuite st ok p hp => rsf_deferred_covers shell true dsuite st ok p hp, ?_⟩
  intro stF okF j hro hjpost hjpre hjt hjdefer hjall hjomit
  unfold run_jobs_with at hro
  rw [if_neg (by cases pre <;> simp)] at hro
  dsimp only at hro
  rw [if_pos rfl, h1] at hro
  have hmem : j ∉ stF.successful ∧ j ∉ stF.failed := by
    split at hro
    · simp at hro
    · rename_i deferred hd
      have hdnames : ∀ x ∈ deferred.map Prod.fst, x ∈ jobs_to_defer := by
        intro x hx
        exact (prepare_go_sublist data dup
          ((⟨pre.map Prod.fst, [t]⟩ : RunState).successful ++
            (⟨pre.map Prod.fst, [t]⟩ : RunState).failed)
          jobs_to_defer [] deferred hd).subset hx
      split at hro
      · obtain hpair := Option.some.inj hro
        have hsf : stF = ⟨pre.map Prod.fst, [t]⟩ := (congrArg Prod.fst hpair).symm
        rw [hsf]
        refine ⟨hjpre, ?_⟩
        intro hm
        rcases List.mem_cons.mp hm with hm | hm
        · exact hjt hm
        · simp at hm
      · obtain hpair := Option.some.inj hro
        have hsf : stF =
            (run_sub_flow shell true false deferred ⟨pre.map Prod.fst, [t]⟩ false).1 :=
          (congrArg Prod.fst hpair).symm
        obtain ⟨ns, nf, hs1, hs2, hs3, hs4⟩ :=
          rsf_extend shell true false deferred ⟨pre.map Prod.fst, [t]⟩ false
        rw [hsf, hs1, hs2]
        constructor
        · intro hm
          rcases List.mem_append.mp hm with hm | hm
          · exact hjpre hm
          · exact hjdefer (hdnames j (hs3 j hm))
        · intro hm
          rcases List.mem_append.mp hm with hm | hm
          · rcases List.mem_cons.mp hm with hm | hm
            · exact hjt hm
            · simp at hm
          · exact hjdefer (hdnames j (hs4 j hm))
  unfold skipped_jobs
  rw [List.mem_filter]
  refine ⟨hjall, ?_⟩
  simp only [decide_eq_true_eq]
  intro hc
  rcases hc with hc | hc | hc
  · exact hmem.1 hc
  · exact hmem.2 hc
  · exact hjomit hc

/-- C2 witness: over the example configuration, with jobs a, b, c in the primary suite
and b failing, the primary flow halts right after b with a succeeded and b failed. -/
theorem C2_fail_fast_witness :
    run_sub_flow exShell true true
        ([(("a"), exBodyA)] ++ (("b"), exBodyB) :: [(("c"), exBodyC)]) ⟨[], []⟩ true =
      (⟨["a"], ["b"]⟩, false) :=
  (C2_fail_fast_amended exShell exData false ["c"] [] ["a", "b", "c"]
    [(("a"), exBodyA)] ("b") exBodyB [(("c"), exBodyC)] (by decide) (by decide)).1

/-- C2 counterexample: fail-fast primary suite a, b, c with b failing and c deferred —
c is never run in the primary pass, yet after the deferred pass c is classified
successful and the skipped list is empty, where the claim classifies c as skipped. -/
theorem C2_counterexample :
    run_jobs exShell exData ["a", "b", "c"] false [] true false ["c"] =
      some (⟨["a", "c"], ["b"]⟩, false) ∧
    job_succeeds exShell (("b"), exBodyB) = false ∧
    run_sub_flow exShell true true
        ([(("a"), exBodyA)] ++ (("b"), exBodyB) :: [(("c"), exBodyC)]) ⟨[], []⟩ true =
      (⟨["a"], ["b"]⟩, false) ∧
    skipped_jobs ["a", "b", "c"] ["a", "c"] ["b"] [] = [] ∧
    ("c") ∉ skipped_jobs ["a", "b", "c"] ["a", "c"] ["b"] [] :=
  ⟨rfl, rfl, rfl, rfl, by decide⟩

end Koi
